import Mathlib

/-
Shallow embedding of `cirq/circuits/convert_to_cz_and_single_gates.py`
(class `ConvertToCzAndSingleGates`).

The external collaborators (the unitary-extraction protocol, the
measurement check, the two-qubit synthesis oracle and the decompose-once
protocol) are treated as an abstract environment, exactly as the spec
declares them: opaque, already-correct services.  The recursion of
`convert` is unbounded in Python; here it takes a fuel parameter, and
running out of fuel is a distinct error, so `Except.ok` results
correspond exactly to Python calls that return normally.
-/

namespace CirqConvert

/-- Qubit identifiers (`cirq.QubitId`); only their identity matters here. -/
abbrev Qid := Nat

/-- Opaque token standing for a unitary matrix returned by
`cirq.protocols.unitary`; the pass never inspects the matrix itself,
it only forwards it to the synthesis oracle. -/
abbrev UMatrix := Nat

/-- The gate of a `GateOperation`: either a `cirq.ops.CZPowGate` with its
exponent, or some other gate (identified by a tag). -/
inductive Gate where
  | czPow (exponent : Rat)
  | other (tag : Nat)
deriving DecidableEq

/-- A `cirq.ops.Operation`: its ordered qubits, and — when it is a
`GateOperation` — its gate (`gate = none` models an operation that is
not a `GateOperation`). -/
structure Op where
  gate : Option Gate
  qubits : List Qid
deriving DecidableEq

/-- A `cirq.ops.OP_TREE`: a leaf operation or an ordered sequence of
subtrees. -/
inductive OpTree where
  | leaf (op : Op)
  | node (children : List OpTree)

/-- The Python code tests `converted is op` (reference identity of an
`OP_TREE` result with the input operation).  `_convert_one` returns the
very object `op` in its keep branches and a fresh list otherwise, so the
test holds exactly when the result is the leaf `op`. -/
def OpTree.isLeafOp (t : OpTree) (op : Op) : Bool :=
  match t with
  | OpTree.leaf q => decide (q = op)
  | OpTree.node _ => false

/-- The constructor-time configuration of `ConvertToCzAndSingleGates`. -/
structure Cfg where
  ignoreFailures : Bool
  allowPartialCzs : Bool
deriving DecidableEq

/-- Failures of `convert`: the `TypeError` raised by `_convert_one`
(carrying the offending operation), or fuel exhaustion (the Python code
would still be recursing). -/
inductive ConvErr where
  | typeError (op : Op)
  | outOfFuel
deriving DecidableEq

/-- The external collaborators, abstract as in the spec.
`unitary` is `cirq.protocols.unitary(op, None)`; `isMeasurement` is
`cirq.ops.MeasurementGate.is_measurement`; `twoQubitMatrixToOperations`
is `cirq.decompositions.two_qubit_matrix_to_operations` (returning its
flat operation list); `decomposeOnce` is
`cirq.protocols.decompose_once(op, None)` (returning a flat operation
list, or `none`). -/
structure Env where
  unitary : Op → Option UMatrix
  isMeasurement : Op → Bool
  twoQubitMatrixToOperations : Qid → Qid → UMatrix → Bool → List Op
  decomposeOnce : Op → Option (List Op)

/-- The classifier rule of `_convert_one` lines 56-59: `op` is a
`GateOperation` whose gate is a `CZPowGate`, and either
`allow_partial_czs` is set or the exponent equals 1. -/
def czKeep (cfg : Cfg) (op : Op) : Bool :=
  match op.gate with
  | some (Gate.czPow e) => cfg.allowPartialCzs || decide (e = 1)
  | _ => false

/-- `ConvertToCzAndSingleGates._convert_one`, faithful to the source:
keep a (partial) CZ per `czKeep`; keep measurements; keep 1-qubit
operations with a known matrix; synthesize 2-qubit operations with a
known matrix via the oracle (qubits in original order, matrix,
`allow_partial_czs=False` — a literal constant in the source);
otherwise decompose once; otherwise keep the operation if
`ignore_failures`, else raise `TypeError`. -/
def convertOne (env : Env) (cfg : Cfg) (op : Op) : Except ConvErr OpTree :=
  if czKeep cfg op then Except.ok (OpTree.leaf op)
  else if env.isMeasurement op then Except.ok (OpTree.leaf op)
  else
    match env.unitary op, op.qubits with
    | some _, [_] => Except.ok (OpTree.leaf op)
    | some mat, [a, b] =>
      Except.ok (OpTree.node
        ((env.twoQubitMatrixToOperations a b mat false).map OpTree.leaf))
    | _, _ =>
      match env.decomposeOnce op with
      | some decomposed => Except.ok (OpTree.node (decomposed.map OpTree.leaf))
      | none =>
        if cfg.ignoreFailures then Except.ok (OpTree.leaf op)
        else Except.error (ConvErr.typeError op)

mutual

/-- Modelled from the spec: the tree-flattening utility
`cirq.ops.flatten_op_tree` (not under `src/`), producing the sequence of
leaf operations of an operation tree in order. -/
def flattenOpTree : OpTree → List Op
  | OpTree.leaf op => [op]
  | OpTree.node ts => flattenOpTrees ts

/-- Flattening of a list of trees, concatenated in order. -/
def flattenOpTrees : List OpTree → List Op
  | [] => []
  | t :: ts => flattenOpTree t ++ flattenOpTrees ts

end

/-- Left-to-right conversion of a list of operations by `f`, stopping at
the first error: the list comprehension
`[self.convert(e) for e in ops.flatten_op_tree(converted)]`. -/
def convertEach (f : Op → Except ConvErr OpTree) :
    List Op → Except ConvErr (List OpTree)
  | [] => Except.ok []
  | q :: qs =>
    match f q with
    | Except.error e => Except.error e
    | Except.ok t =>
      match convertEach f qs with
      | Except.error e => Except.error e
      | Except.ok ts => Except.ok (t :: ts)

/-- `ConvertToCzAndSingleGates.convert`, with fuel bounding the recursion
depth: convert the operation once; if the result is (reference-)identical
to the operation, return it; otherwise recursively convert every leaf of
the result and return the list of the recursive results. -/
def convert (env : Env) (cfg : Cfg) : Nat → Op → Except ConvErr OpTree
  | 0, _ => Except.error ConvErr.outOfFuel
  | Nat.succ n, op =>
    match convertOne env cfg op with
    | Except.error e => Except.error e
    | Except.ok converted =>
      if OpTree.isLeafOp converted op then Except.ok converted
      else
        match convertEach (convert env cfg n) (flattenOpTree converted) with
        | Except.error e => Except.error e
        | Except.ok results => Except.ok (OpTree.node results)

/-- A circuit as far as this pass is concerned: `optimization_at` never
reads it. -/
abbrev Circuit := List (List Op)

/-- Modelled from the spec: `PointOptimizationSummary`
(`cirq/circuits/optimization_pass.py`, not under `src/`): the cleared
span, the replacement operations as the flattened leaf sequence, and the
cleared qubits. -/
structure PointOptimizationSummary where
  clearSpan : Nat
  newOperations : List Op
  clearQubits : List Qid
deriving DecidableEq

/-- `ConvertToCzAndSingleGates.optimization_at`: convert the operation;
if the result is (reference-)identical to the operation report no
change, otherwise report a replacement summary clearing exactly this
position and these qubits. -/
def optimizationAt (env : Env) (cfg : Cfg) (fuel : Nat)
    (_circuit : Circuit) (_index : Nat) (op : Op) :
    Except ConvErr (Option PointOptimizationSummary) :=
  match convert env cfg fuel op with
  | Except.error e => Except.error e
  | Except.ok converted =>
    if OpTree.isLeafOp converted op then Except.ok none
    else Except.ok (some
      { clearSpan := 1
        newOperations := flattenOpTree converted
        clearQubits := op.qubits })

/-! ### A concrete environment, used to exercise the theorems -/

/-- A small concrete environment: CZ-power gates and `other 1` gates
have a matrix; `other 2` gates are measurements; `other 3` gates
decompose to nothing; `other 4` gates decompose one level to an
`other 1` gate on the same qubits; the synthesis oracle always emits one
exact CZ on the two given qubits. -/
def sampleEnv : Env where
  unitary := fun op =>
    match op.gate with
    | some (Gate.czPow _) => some 0
    | some (Gate.other 1) => some 1
    | _ => none
  isMeasurement := fun op => decide (op.gate = some (Gate.other 2))
  twoQubitMatrixToOperations := fun a b _ _ =>
    [{ gate := some (Gate.czPow 1), qubits := [a, b] }]
  decomposeOnce := fun op =>
    match op.gate with
    | some (Gate.other 3) => some []
    | some (Gate.other 4) => some [{ gate := some (Gate.other 1), qubits := op.qubits }]
    | _ => none

/-- A CZ with exponent 1 on qubits 0 and 1. -/
def opCz1 : Op := { gate := some (Gate.czPow 1), qubits := [0, 1] }

/-- A partial CZ (exponent 2) on qubits 0 and 1. -/
def opCz2 : Op := { gate := some (Gate.czPow 2), qubits := [0, 1] }

/-- A 1-qubit gate with a known matrix. -/
def opU1 : Op := { gate := some (Gate.other 1), qubits := [0] }

/-- A 2-qubit gate with a known matrix that is not a CZ. -/
def opU2 : Op := { gate := some (Gate.other 1), qubits := [0, 1] }

/-- A 3-qubit gate with no matrix and no decomposition. -/
def opBad : Op := { gate := some (Gate.other 0), qubits := [0, 1, 2] }

/-- A gate whose one-level decomposition is empty. -/
def opDecEmpty : Op := { gate := some (Gate.other 3), qubits := [0] }

/-- Configuration with both flags off (the defaults). -/
def cfgFF : Cfg := { ignoreFailures := false, allowPartialCzs := false }

/-- Configuration with `ignore_failures` on. -/
def cfgTF : Cfg := { ignoreFailures := true, allowPartialCzs := false }

/-- Configuration with `allow_partial_czs` on. -/
def cfgFT : Cfg := { ignoreFailures := false, allowPartialCzs := true }

/-! ### Helper lemmas -/

theorem OpTree.isLeafOp_iff (t : OpTree) (op : Op) :
    OpTree.isLeafOp t op = true ↔ t = OpTree.leaf op := by
  cases t with
  | leaf q => simp [OpTree.isLeafOp]
  | node ts => simp [OpTree.isLeafOp]

theorem mem_flattenOpTrees (q : Op) (ts : List OpTree) :
    q ∈ flattenOpTrees ts ↔ ∃ t ∈ ts, q ∈ flattenOpTree t := by
  induction ts with
  | nil => simp [flattenOpTrees]
  | cons t ts ih => simp [flattenOpTrees, ih]

theorem convertEach_ok_mem (f : Op → Except ConvErr OpTree) :
    ∀ (l : List Op) (rs : List OpTree), convertEach f l = Except.ok rs →
      ∀ r ∈ rs, ∃ a ∈ l, f a = Except.ok r := by
  intro l
  induction l with
  | nil =>
    intro rs h r hr
    simp [convertEach] at h
    subst h
    simp at hr
  | cons a l ih =>
    intro rs h r hr
    unfold convertEach at h
    cases hfa : f a with
    | error e => rw [hfa] at h; simp at h
    | ok t =>
      rw [hfa] at h
      cases hrest : convertEach f l with
      | error e => rw [hrest] at h; simp at h
      | ok ts =>
        rw [hrest] at h
        simp at h
        subst h
        rcases List.mem_cons.mp hr with rfl | hr'
        · exact ⟨a, List.mem_cons_self a l, hfa⟩
        · rcases ih ts hrest r hr' with ⟨b, hb, hfb⟩
          exact ⟨b, List.mem_cons_of_mem a hb, hfb⟩

/-- `_convert_one` returns a leaf only in its return-`op` branches: the
leaf is `op` itself, and one of the four keep conditions holds. -/
theorem convertOne_ok_leaf (env : Env) (cfg : Cfg) (op p : Op)
    (h : convertOne env cfg op = Except.ok (OpTree.leaf p)) :
    p = op ∧ (czKeep cfg op = true ∨ env.isMeasurement op = true ∨
      ((env.unitary op).isSome = true ∧ op.qubits.length = 1) ∨
      cfg.ignoreFailures = true) := by
  unfold convertOne at h
  split at h
  · simp at h
    exact ⟨h.symm, Or.inl (by assumption)⟩
  split at h
  · simp at h
    exact ⟨h.symm, Or.inr (Or.inl (by assumption))⟩
  split at h
  · rename_i heq hq
    simp at h
    exact ⟨h.symm, Or.inr (Or.inr (Or.inl (by simp [heq, hq])))⟩
  · simp at h
  · split at h
    · simp at h
    · split at h
      · simp at h
        exact ⟨h.symm, Or.inr (Or.inr (Or.inr (by assumption)))⟩
      · simp at h

/-- Every leaf of a successful `convert` result is a fixed point of
`_convert_one`. -/
theorem convert_ok_leaf_fixed (env : Env) (cfg : Cfg) :
    ∀ (fuel : Nat) (op : Op) (t : OpTree), convert env cfg fuel op = Except.ok t →
      ∀ q ∈ flattenOpTree t, convertOne env cfg q = Except.ok (OpTree.leaf q) := by
  intro fuel
  induction fuel with
  | zero => intro op t h; simp [convert] at h
  | succ n ih =>
    intro op t h
    unfold convert at h
    cases hco : convertOne env cfg op with
    | error e => rw [hco] at h; simp at h
    | ok converted =>
      rw [hco] at h
      dsimp only at h
      cases hid : OpTree.isLeafOp converted op with
      | true =>
        rw [hid] at h
        simp at h
        subst h
        have hleaf := (OpTree.isLeafOp_iff converted op).mp hid
        subst hleaf
        intro q hq
        simp [flattenOpTree] at hq
        subst hq
        exact hco
      | false =>
        rw [hid] at h
        simp at h
        cases hce : convertEach (convert env cfg n) (flattenOpTree converted) with
        | error e => rw [hce] at h; simp at h
        | ok results =>
          rw [hce] at h
          simp at h
          subst h
          intro q hq
          rw [flattenOpTree] at hq
          rcases (mem_flattenOpTrees q results).mp hq with ⟨r, hr, hqr⟩
          rcases convertEach_ok_mem _ _ _ hce r hr with ⟨a, _, hfa⟩
          exact ih a r hfa q hqr

/-- A fixed point of `_convert_one` is returned unchanged by `convert`
whenever there is any fuel left. -/
theorem convert_of_fixed (env : Env) (cfg : Cfg) (q : Op)
    (h : convertOne env cfg q = Except.ok (OpTree.leaf q)) :
    ∀ fuel : Nat, 0 < fuel → convert env cfg fuel q = Except.ok (OpTree.leaf q) := by
  intro fuel hf
  cases fuel with
  | zero => exact absurd hf (by simp)
  | succ n => simp [convert, h, OpTree.isLeafOp]

/-- When the classifier, the measurement check and the 1- and 2-qubit
matrix branches all fail, `_convert_one` reaches the decomposition and
failure-policy code. -/
theorem convertOne_fallthrough (env : Env) (cfg : Cfg) (op : Op)
    (hcz : czKeep cfg op = false) (hm : env.isMeasurement op = false)
    (hu : env.unitary op = none ∨ (op.qubits.length ≠ 1 ∧ op.qubits.length ≠ 2)) :
    convertOne env cfg op =
      match env.decomposeOnce op with
      | some decomposed => Except.ok (OpTree.node (decomposed.map OpTree.leaf))
      | none =>
        if cfg.ignoreFailures then Except.ok (OpTree.leaf op)
        else Except.error (ConvErr.typeError op) := by
  unfold convertOne
  rw [hcz, hm]
  simp only [Bool.false_eq_true, if_false]
  rcases hu with hnone | ⟨h1, h2⟩
  · rw [hnone]
  · cases hun : env.unitary op with
    | none =>
      rcases hq : op.qubits with _ | ⟨a, _ | ⟨b, _ | ⟨c, l⟩⟩⟩ <;> rfl
    | some m =>
      rcases hq : op.qubits with _ | ⟨a, _ | ⟨b, _ | ⟨c, l⟩⟩⟩
      · rfl
      · exact absurd (by rw [hq]; rfl) h1
      · exact absurd (by rw [hq]; rfl) h2
      · rfl

/-- The 2-qubit synthesis branch of `_convert_one`: qubits in original
order, the extracted matrix, and the literal `allow_partial_czs=False`. -/
theorem convertOne_synth_branch (env : Env) (cfg : Cfg) (op : Op)
    (a b : Qid) (mat : UMatrix)
    (hq : op.qubits = [a, b]) (hu : env.unitary op = some mat)
    (hcz : czKeep cfg op = false) (hm : env.isMeasurement op = false) :
    convertOne env cfg op = Except.ok (OpTree.node
      ((env.twoQubitMatrixToOperations a b mat false).map OpTree.leaf)) := by
  unfold convertOne
  rw [hcz, hm, hu, hq]
  rfl

/-! ### Claims -/

/-- C1: for every operation on which `convert` returns normally, every
leaf operation reachable from the returned result is classified legal by
the rules of `_convert_one` — an accepted CZ-power operation, a
measurement, or a 1-qubit operation with a known unitary matrix (leaves
emitted by the synthesis oracle have themselves been re-converted into
such leaves) — or `ignore_failures` is true and the leaf was passed
through unchanged; no other leaf appears in the output. -/
theorem convert_leaves_classified (env : Env) (cfg : Cfg) (fuel : Nat)
    (op : Op) (t : OpTree) (h : convert env cfg fuel op = Except.ok t) :
    ∀ q ∈ flattenOpTree t,
      czKeep cfg q = true ∨ env.isMeasurement q = true ∨
      ((env.unitary q).isSome = true ∧ q.qubits.length = 1) ∨
      cfg.ignoreFailures = true := by
  intro q hq
  exact (convertOne_ok_leaf env cfg q q
    (convert_ok_leaf_fixed env cfg fuel op t h q hq)).2

/-- Witness for C1 at a concrete 2-qubit synthesis conversion. -/
theorem convert_leaves_classified_witness :
    convert sampleEnv cfgFF 2 opU2 = Except.ok (OpTree.node [OpTree.leaf opCz1]) ∧
    ∀ q ∈ flattenOpTree (OpTree.node [OpTree.leaf opCz1]),
      czKeep cfgFF q = true ∨ sampleEnv.isMeasurement q = true ∨
      ((sampleEnv.unitary q).isSome = true ∧ q.qubits.length = 1) ∨
      cfgFF.ignoreFailures = true :=
  ⟨rfl, convert_leaves_classified sampleEnv cfgFF 2 opU2
    (OpTree.node [OpTree.leaf opCz1]) rfl⟩

/-- C2: for an operation that is not classified legal, has no usable
matrix (none, or a qubit count other than 1 or 2) and no decomposition:
with `ignore_failures` false, `convert` raises the `TypeError` carrying
the operation and returns no partial output; with `ignore_failures`
true, it returns the operation itself unchanged. -/
theorem convert_unconvertible_failure_policy (env : Env) (cfg : Cfg)
    (fuel : Nat) (op : Op) (hf : 0 < fuel)
    (hcz : czKeep cfg op = false) (hm : env.isMeasurement op = false)
    (hu : env.unitary op = none ∨ (op.qubits.length ≠ 1 ∧ op.qubits.length ≠ 2))
    (hd : env.decomposeOnce op = none) :
    (cfg.ignoreFailures = false →
      convert env cfg fuel op = Except.error (ConvErr.typeError op)) ∧
    (cfg.ignoreFailures = true →
      convert env cfg fuel op = Except.ok (OpTree.leaf op)) := by
  have hone := convertOne_fallthrough env cfg op hcz hm hu
  rw [hd] at hone
  constructor
  · intro hig
    rw [hig] at hone
    simp only [Bool.false_eq_true, if_false] at hone
    cases fuel with
    | zero => exact absurd hf (by simp)
    | succ n =>
      unfold convert
      rw [hone]
  · intro hig
    rw [hig] at hone
    simp only [if_true] at hone
    exact convert_of_fixed env cfg op hone fuel hf

/-- Witness for C2: a 3-qubit operation with no matrix and no
decomposition, under both failure policies. -/
theorem convert_unconvertible_failure_policy_witness :
    convert sampleEnv cfgFF 1 opBad = Except.error (ConvErr.typeError opBad) ∧
    convert sampleEnv cfgTF 1 opBad = Except.ok (OpTree.leaf opBad) :=
  ⟨(convert_unconvertible_failure_policy sampleEnv cfgFF 1 opBad (by decide)
      rfl rfl (Or.inl rfl) rfl).1 rfl,
   (convert_unconvertible_failure_policy sampleEnv cfgTF 1 opBad (by decide)
      rfl rfl (Or.inl rfl) rfl).2 rfl⟩

/-- C3: for a 2-qubit operation with a known unitary matrix that is not
classified legal, the synthesis oracle is invoked with the two qubits in
their original order, the matrix, and `allow_partial_czs=False` —
independent of the component's `allow_partial_czs` flag (`cfg` is
arbitrary here). -/
theorem convertOne_synthesis_fixed_mode (env : Env) (cfg : Cfg) (op : Op)
    (a b : Qid) (mat : UMatrix)
    (hq : op.qubits = [a, b]) (hu : env.unitary op = some mat)
    (hcz : czKeep cfg op = false) (hm : env.isMeasurement op = false) :
    convertOne env cfg op = Except.ok (OpTree.node
      ((env.twoQubitMatrixToOperations a b mat false).map OpTree.leaf)) :=
  convertOne_synth_branch env cfg op a b mat hq hu hcz hm

/-- Witness for C3, with `allow_partial_czs` set in the configuration
and nevertheless `false` passed to the oracle. -/
theorem convertOne_synthesis_fixed_mode_witness :
    convertOne sampleEnv cfgFT opU2 = Except.ok (OpTree.node
      ((sampleEnv.twoQubitMatrixToOperations 0 1 1 false).map OpTree.leaf)) :=
  convertOne_synthesis_fixed_mode sampleEnv cfgFT opU2 0 1 1 rfl rfl rfl rfl

/-- C4: `optimization_at` reports a null summary exactly when `convert`
returned the operation itself; otherwise it reports a replacement
summary with `clear_span = 1`, the flattened leaf sequence of the
conversion as new operations, and exactly the operation's qubits
cleared. -/
theorem optimizationAt_null_iff_identity (env : Env) (cfg : Cfg) (fuel : Nat)
    (circuit : Circuit) (index : Nat) (op : Op) (t : OpTree)
    (h : convert env cfg fuel op = Except.ok t) :
    (optimizationAt env cfg fuel circuit index op = Except.ok none ↔
      t = OpTree.leaf op) ∧
    (t ≠ OpTree.leaf op →
      optimizationAt env cfg fuel circuit index op = Except.ok (some
        { clearSpan := 1
          newOperations := flattenOpTree t
          clearQubits := op.qubits })) := by
  unfold optimizationAt
  rw [h]
  dsimp only
  cases hid : OpTree.isLeafOp t op with
  | true =>
    have hleaf := (OpTree.isLeafOp_iff t op).mp hid
    constructor
    · simp [hleaf]
    · intro hne
      exact absurd hleaf hne
  | false =>
    have hne : ¬t = OpTree.leaf op := by
      intro hcontra
      rw [(OpTree.isLeafOp_iff t op).mpr hcontra] at hid
      cases hid
    constructor
    · simp [hne]
    · intro _
      simp

/-- Witness for C4 at a rewritten operation. -/
theorem optimizationAt_null_iff_identity_witness :
    (optimizationAt sampleEnv cfgFF 2 [] 0 opU2 = Except.ok none ↔
      OpTree.node [OpTree.leaf opCz1] = OpTree.leaf opU2) ∧
    (OpTree.node [OpTree.leaf opCz1] ≠ OpTree.leaf opU2 →
      optimizationAt sampleEnv cfgFF 2 [] 0 opU2 = Except.ok (some
        { clearSpan := 1
          newOperations := flattenOpTree (OpTree.node [OpTree.leaf opCz1])
          clearQubits := opU2.qubits })) :=
  optimizationAt_null_iff_identity sampleEnv cfgFF 2 [] 0 opU2
    (OpTree.node [OpTree.leaf opCz1]) rfl

/-- C5: a CZ-power operation with exponent exactly 1 is returned
unchanged by `convert`, for every configuration (in particular for both
values of `allow_partial_czs`). -/
theorem convert_exact_cz_unchanged (env : Env) (cfg : Cfg) (fuel : Nat)
    (op : Op) (hf : 0 < fuel) (hg : op.gate = some (Gate.czPow 1)) :
    convert env cfg fuel op = Except.ok (OpTree.leaf op) := by
  have hcz : czKeep cfg op = true := by simp [czKeep, hg]
  have hone : convertOne env cfg op = Except.ok (OpTree.leaf op) := by
    unfold convertOne
    rw [hcz]
    rfl
  exact convert_of_fixed env cfg op hone fuel hf

/-- Witness for C5, under both values of `allow_partial_czs`. -/
theorem convert_exact_cz_unchanged_witness :
    convert sampleEnv cfgFF 1 opCz1 = Except.ok (OpTree.leaf opCz1) ∧
    convert sampleEnv cfgFT 1 opCz1 = Except.ok (OpTree.leaf opCz1) :=
  ⟨convert_exact_cz_unchanged sampleEnv cfgFF 1 opCz1 (by decide) rfl,
   convert_exact_cz_unchanged sampleEnv cfgFT 1 opCz1 (by decide) rfl⟩

/-- C6: a CZ-power operation with exponent not equal to 1 is returned
unchanged when `allow_partial_czs` is true; when it is false the
classifier rejects it and `_convert_one` takes the two-qubit synthesis
branch instead. -/
theorem convert_partial_cz_cases (env : Env) (cfg : Cfg) (fuel : Nat)
    (op : Op) (e : Rat) (a b : Qid) (mat : UMatrix)
    (hf : 0 < fuel) (hg : op.gate = some (Gate.czPow e)) (he : e ≠ 1)
    (hm : env.isMeasurement op = false) (hu : env.unitary op = some mat)
    (hq : op.qubits = [a, b]) :
    (cfg.allowPartialCzs = true →
      convert env cfg fuel op = Except.ok (OpTree.leaf op)) ∧
    (cfg.allowPartialCzs = false →
      czKeep cfg op = false ∧
      convertOne env cfg op = Except.ok (OpTree.node
        ((env.twoQubitMatrixToOperations a b mat false).map OpTree.leaf))) := by
  constructor
  · intro hap
    have hcz : czKeep cfg op = true := by simp [czKeep, hg, hap]
    have hone : convertOne env cfg op = Except.ok (OpTree.leaf op) := by
      unfold convertOne
      rw [hcz]
      rfl
    exact convert_of_fixed env cfg op hone fuel hf
  · intro hap
    have hcz : czKeep cfg op = false := by simp [czKeep, hg, hap, he]
    exact ⟨hcz, convertOne_synth_branch env cfg op a b mat hq hu hcz hm⟩

/-- Witness for C6 at exponent 2, under both flag values. -/
theorem convert_partial_cz_cases_witness :
    convert sampleEnv cfgFT 1 opCz2 = Except.ok (OpTree.leaf opCz2) ∧
    (czKeep cfgFF opCz2 = false ∧
      convertOne sampleEnv cfgFF opCz2 = Except.ok (OpTree.node
        ((sampleEnv.twoQubitMatrixToOperations 0 1 0 false).map OpTree.leaf))) :=
  ⟨(convert_partial_cz_cases sampleEnv cfgFT 1 opCz2 2 0 1 0 (by decide) rfl
      (by decide) rfl rfl rfl).1 rfl,
   (convert_partial_cz_cases sampleEnv cfgFF 1 opCz2 2 0 1 0 (by decide) rfl
      (by decide) rfl rfl rfl).2 rfl⟩

/-- C7: idempotence — every leaf of a successful `convert` result is
returned unchanged when `convert` is applied to it again (with any
positive fuel), so re-converting the output reproduces it leaf by
leaf. -/
theorem convert_idempotent_on_output (env : Env) (cfg : Cfg) (fuel : Nat)
    (op : Op) (t : OpTree) (h : convert env cfg fuel op = Except.ok t) :
    ∀ q ∈ flattenOpTree t, ∀ fuel2 : Nat, 0 < fuel2 →
      convert env cfg fuel2 q = Except.ok (OpTree.leaf q) := by
  intro q hq fuel2 hf2
  exact convert_of_fixed env cfg q
    (convert_ok_leaf_fixed env cfg fuel op t h q hq) fuel2 hf2

/-- Witness for C7: re-converting the one leaf of a synthesis result. -/
theorem convert_idempotent_on_output_witness :
    convert sampleEnv cfgFF 2 opU2 = Except.ok (OpTree.node [OpTree.leaf opCz1]) ∧
    convert sampleEnv cfgFF 1 opCz1 = Except.ok (OpTree.leaf opCz1) :=
  ⟨rfl, convert_idempotent_on_output sampleEnv cfgFF 2 opU2
    (OpTree.node [OpTree.leaf opCz1]) rfl opCz1
    (by simp [flattenOpTree, flattenOpTrees]) 1 (by decide)⟩

/-- C8: a 1-qubit operation with a known unitary matrix that is not
caught by an earlier classifier rule is returned unchanged:
`_convert_one` returns the operation itself, so the identity check in
`convert` fires with no further recursion. -/
theorem convert_one_qubit_unitary_unchanged (env : Env) (cfg : Cfg)
    (fuel : Nat) (op : Op) (mat : UMatrix) (q0 : Qid)
    (hf : 0 < fuel)
    (hcz : czKeep cfg op = false) (hm : env.isMeasurement op = false)
    (hu : env.unitary op = some mat) (hq : op.qubits = [q0]) :
    convertOne env cfg op = Except.ok (OpTree.leaf op) ∧
    convert env cfg fuel op = Except.ok (OpTree.leaf op) := by
  have hone : convertOne env cfg op = Except.ok (OpTree.leaf op) := by
    unfold convertOne
    rw [hcz, hm, hu, hq]
    rfl
  exact ⟨hone, convert_of_fixed env cfg op hone fuel hf⟩

/-- Witness for C8 at a concrete 1-qubit matrix gate with fuel 1. -/
theorem convert_one_qubit_unitary_unchanged_witness :
    convertOne sampleEnv cfgFF opU1 = Except.ok (OpTree.leaf opU1) ∧
    convert sampleEnv cfgFF 1 opU1 = Except.ok (OpTree.leaf opU1) :=
  convert_one_qubit_unitary_unchanged sampleEnv cfgFF 1 opU1 1 0 (by decide)
    rfl rfl rfl rfl

/-- C9: the classifier's CZ rule is structural — it accepts exactly the
`GateOperation`s whose gate is a `CZPowGate` (with the flag/exponent
condition); an operation of any other gate type, even one whose unitary
matrix is available (and possibly equal to the entangling gate's), is
rejected by the rule and routed through the unitary/synthesis path. -/
theorem classifier_structural_cz (env : Env) (cfg : Cfg) (op : Op)
    (a b : Qid) (mat : UMatrix) :
    (czKeep cfg op = true ↔ ∃ e : Rat, op.gate = some (Gate.czPow e) ∧
      (cfg.allowPartialCzs = true ∨ e = 1)) ∧
    ((∀ e : Rat, op.gate ≠ some (Gate.czPow e)) →
      env.isMeasurement op = false → env.unitary op = some mat →
      op.qubits = [a, b] →
      convertOne env cfg op = Except.ok (OpTree.node
        ((env.twoQubitMatrixToOperations a b mat false).map OpTree.leaf))) := by
  constructor
  · cases hg : op.gate with
    | none => simp [czKeep, hg]
    | some g =>
      cases g with
      | czPow e => simp [czKeep, hg]
      | other tg => simp [czKeep, hg]
  · intro hne hm hu hq
    have hcz : czKeep cfg op = false := by
      cases hg : op.gate with
      | none => simp [czKeep, hg]
      | some g =>
        cases g with
        | czPow e => exact absurd hg (hne e)
        | other tg => simp [czKeep, hg]
    exact convertOne_synth_branch env cfg op a b mat hq hu hcz hm

/-- Witness for C9: a non-CZ 2-qubit gate with a matrix is synthesized,
not kept. -/
theorem classifier_structural_cz_witness :
    convertOne sampleEnv cfgFT opU2 = Except.ok (OpTree.node
      ((sampleEnv.twoQubitMatrixToOperations 0 1 1 false).map OpTree.leaf)) :=
  (classifier_structural_cz sampleEnv cfgFT opU2 0 1 1).2
    (fun e h => by simp [opU2] at h) rfl rfl rfl

/-- C10: when the decompose-once protocol yields a present-but-empty
result, `convert` returns an empty sequence (the operation is removed),
and `optimization_at` reports a replacement summary with no new
operations rather than a null summary. -/
theorem convert_empty_decomposition_removes_op (env : Env) (cfg : Cfg)
    (fuel : Nat) (circuit : Circuit) (index : Nat) (op : Op)
    (hf : 0 < fuel)
    (hcz : czKeep cfg op = false) (hm : env.isMeasurement op = false)
    (hu : env.unitary op = none ∨ (op.qubits.length ≠ 1 ∧ op.qubits.length ≠ 2))
    (hd : env.decomposeOnce op = some []) :
    convert env cfg fuel op = Except.ok (OpTree.node []) ∧
    flattenOpTree (OpTree.node []) = [] ∧
    optimizationAt env cfg fuel circuit index op = Except.ok (some
      { clearSpan := 1, newOperations := [], clearQubits := op.qubits }) := by
  have hone : convertOne env cfg op = Except.ok (OpTree.node []) := by
    rw [convertOne_fallthrough env cfg op hcz hm hu, hd]
    rfl
  have hconv : convert env cfg fuel op = Except.ok (OpTree.node []) := by
    cases fuel with
    | zero => exact absurd hf (by simp)
    | succ n =>
      unfold convert
      rw [hone]
      rfl
  refine ⟨hconv, rfl, ?_⟩
  unfold optimizationAt
  rw [hconv]
  rfl

/-- Witness for C10 at a gate whose decomposition is empty. -/
theorem convert_empty_decomposition_removes_op_witness :
    convert sampleEnv cfgFF 1 opDecEmpty = Except.ok (OpTree.node []) ∧
    flattenOpTree (OpTree.node []) = [] ∧
    optimizationAt sampleEnv cfgFF 1 [] 0 opDecEmpty = Except.ok (some
      { clearSpan := 1, newOperations := [], clearQubits := opDecEmpty.qubits }) :=
  convert_empty_decomposition_removes_op sampleEnv cfgFF 1 [] 0 opDecEmpty
    (by decide) rfl rfl (Or.inl rfl) rfl

end CirqConvert
